import Mathlib

/-!
# Verification of the AdaptiveStreaming decision engine

A shallow embedding, in Lean 4, of the scheduling core of the
AdaptiveStreaming repository (Babylon.js museum client):

* `SpeedManager` (Babylon.js/*/src/speed_manager.ts): bounded FIFO queues of
  bandwidth / decompression-speed samples and their averaging getters.
* The per-tick byte budget computed by the `Greedy_2`, `Uniform_2` and
  `Hybrid_2` strategies (strategies.ts).
* The selection loops of the six scheduling strategies (strategies.ts):
  `naive1`, `greedy1`, `proposed1` over visible objects, and the
  budget-bounded `greedy2` / `uniform2` / `hybrid2` passes.
* `MuseumObject.import` (museum_object.ts): the guard / request-flag /
  `currentLevel` state machine.
* `ObjectManager.anim_import` and `checkAllLoaded` (object_manager.ts).
* `Metrics.distance` and the `visible` metric guard (metrics.ts), and
  `ConvexHull.getSurfaceOnScreen` (convex_hull.ts).

Numbers of the JavaScript source are modelled as `ℚ` (the source only adds,
multiplies and divides measured values), JavaScript array indices that can be
negative (`currentLevel` starts at `-1`) as `ℤ`, and JavaScript sparse arrays
of booleans / meshes as total functions `ℤ → Bool`, out-of-range reads giving
`false` exactly as `undefined` is falsy in the source.  `while` / `do-while`
loops are embedded structurally with an explicit iteration bound that is at
least the number of iterations the source loop can make, the loop condition
being re-checked inside.
-/

namespace AdaptiveStreaming

/-! ## SpeedManager (speed_manager.ts)

`SpeedManager` keeps two queues of at most `ELEMENTS_IN_QUEUES = 10` samples.
Pushing appends and then repeatedly `shift`s (drops the oldest, i.e. the list
head) while the queue is longer than the capacity.  The state of each queue is
modelled as the list of samples it holds, oldest first. -/

/-- Max number of elements in the queues (`ELEMENTS_IN_QUEUES = 10`). -/
def ELEMENTS_IN_QUEUES : ℕ := 10

/-- The `while (queue.length > ELEMENTS_IN_QUEUES) queue.shift();` loop shared
by `pushBandwidth` and `pushDSpeed`. -/
def shiftWhileTooLong (l : List ℚ) : List ℚ :=
  if ELEMENTS_IN_QUEUES < l.length then shiftWhileTooLong l.tail else l
termination_by l.length
decreasing_by
  cases l with
  | nil => simp [ELEMENTS_IN_QUEUES] at *
  | cons a t => simp

/-- `SpeedManager.pushBandwidth`: append the sample, then evict from the front
while over capacity. -/
def pushBandwidth (queue : List ℚ) (pBandwidth : ℚ) : List ℚ :=
  shiftWhileTooLong (queue ++ [pBandwidth])

/-- `SpeedManager.pushDSpeed`: same shape as `pushBandwidth`, on the
decompression-speed queue. -/
def pushDSpeed (queue : List ℚ) (pDSpeed : ℚ) : List ℚ :=
  shiftWhileTooLong (queue ++ [pDSpeed])

/-- `SpeedManager.getBandwidth`: total of the queue (accumulated left to
right) divided by its length, or the default `100` when the queue is empty. -/
def getBandwidth (queue : List ℚ) : ℚ :=
  let total := queue.foldl (· + ·) 0
  if queue.length = 0 then 100 else total / queue.length

/-- `SpeedManager.getDSpeed`: identical averaging on the DSpeed queue. -/
def getDSpeed (queue : List ℚ) : ℚ :=
  let total := queue.foldl (· + ·) 0
  if queue.length = 0 then 100 else total / queue.length

/-- The last `min (l.length) n` elements of a list (the sliding window the
spec describes). -/
def lastWindow (n : ℕ) (l : List ℚ) : List ℚ := l.drop (l.length - n)

/-! ## The per-tick byte budget (strategies.ts, greedy2 / uniform2 / hybrid2)

```js
const bw = SpeedManager.getBandwidth();
const ds = SpeedManager.getDSpeed();
const budget = (bw * ds / (bw + ds)) * this.BUFFER;
```
-/

/-- `Strategies.BUFFER`: download buffer size in seconds. -/
def BUFFER : ℚ := 2

/-- The budget expression computed (identically) at the start of `greedy2`,
`uniform2` and `hybrid2`. -/
def strategyBudget (bw ds : ℚ) : ℚ := bw * ds / (bw + ds) * BUFFER

/-- Modelled from the spec: the harmonic mean named by the specification,
`harmonic_mean(a, b) = 2ab / (a + b)`, used to compare the spec's stated
budget formula with the one in the code. -/
def specHarmonicMean (a b : ℚ) : ℚ := 2 * a * b / (a + b)

/-! ## Budget-bounded selection passes (strategies.ts: greedy2 / uniform2 / hybrid2)

The three budget-bounded strategies build, for each `MuseumObject`, a record
`{ object, utility, nextLevel }` with `nextLevel` initialised to
`object.currentLevel`, sort the records by descending utility, and then walk
them accumulating `nb_bits`.  Only the fields of the object the walk reads
are modelled: the level count, the per-level size (`getLevelSize`), whether a
level is already downloaded (`getLevel` truthiness), and `currentLevel` at
pass start.  The bound proved below holds for any record order, hence the
descending-utility sort is left abstract (the records may arrive in any
order). -/

/-- The per-object data read by the greedy2 / uniform2 / hybrid2 walks. -/
structure UtilEntry where
  nbLevels : ℕ
  size : ℤ → ℚ
  loaded : ℤ → Bool
  cur : ℤ

/-- `currentObject.getLevel(l) ? 0 : currentObject.getLevelSize(l)` — the
byte cost the walks attribute to level `l`. -/
def levelCost (o : UtilEntry) (l : ℤ) : ℚ :=
  if o.loaded l then 0 else o.size l

/-- The inner `while (nextLevel + 1 < currentObject.getNumberOfLevels())`
walk of `greedy2` (also used on the not-visible partition of `hybrid2`),
with an explicit iteration bound re-checking the loop condition. -/
def greedyBumpF (o : UtilEntry) (budget : ℚ) : ℕ → ℤ → ℚ → ℤ × ℚ
  | 0, nextLevel, nb_bits => (nextLevel, nb_bits)
  | fuel + 1, nextLevel, nb_bits =>
    if nextLevel + 1 < (o.nbLevels : ℤ) then
      let cost := levelCost o (nextLevel + 1) - levelCost o nextLevel
      if budget < nb_bits + cost then (nextLevel, nb_bits)
      else greedyBumpF o budget fuel (nextLevel + 1) (nb_bits + cost)
    else (nextLevel, nb_bits)

/-- One object's greedy walk, starting from its `nextLevel` and the running
`nb_bits`; the iteration bound `(nbLevels + 1 - nextLevel).toNat` exceeds the
number of times `nextLevel + 1 < nbLevels` can hold while incrementing. -/
def greedyBump (o : UtilEntry) (budget : ℚ) (nextLevel : ℤ) (nb_bits : ℚ) : ℤ × ℚ :=
  greedyBumpF o budget ((o.nbLevels : ℤ) + 1 - nextLevel).toNat nextLevel nb_bits

/-- One record's step of the greedy2 walk over the ranked list (also the
walk hybrid2 runs on its not-visible partition). -/
def greedy2Step (budget : ℚ) (acc : List (UtilEntry × ℤ) × ℚ) (o : UtilEntry) :
    List (UtilEntry × ℤ) × ℚ :=
  let r := greedyBump o budget o.cur acc.2
  (acc.1 ++ [(o, r.1)], r.2)

/-- The `greedy2` selection phase: walk the ranked records in order, bumping
each record's `nextLevel` while the incremental cost fits the budget.
Returns the records with their final `nextLevel` and the final `nb_bits`. -/
def greedy2Select (objects : List UtilEntry) (budget : ℚ) :
    List (UtilEntry × ℤ) × ℚ :=
  objects.foldl (greedy2Step budget) ([], 0)

/-- One record's step of a `uniform2` pass at shared target `currentLevel`:
skipped when `currentLevel ≥ nbLevels`; `continue` when the cost overflows
the budget; otherwise `change := true` and, when `currentLevel > nextLevel`,
the record's `nextLevel` and `nb_bits` are updated.  State is
`(record, (nb_bits, change))`. -/
def uniform2Entry (budget : ℚ) (currentLevel : ℤ) (e : UtilEntry × ℤ)
    (st : ℚ × Bool) : (UtilEntry × ℤ) × ℚ × Bool :=
  let o := e.1
  let nextLevel := e.2
  if currentLevel < (o.nbLevels : ℤ) then
    let cost := levelCost o currentLevel - levelCost o nextLevel
    if budget < st.1 + cost then (e, st)
    else if nextLevel < currentLevel then ((o, currentLevel), st.1 + cost, true)
    else (e, st.1, true)
  else (e, st)

/-- One full `for` pass of `uniform2` over the ranked records at shared
target `currentLevel`, threading `nb_bits` and the `change` flag. -/
def uniform2Pass (budget : ℚ) (currentLevel : ℤ) :
    List (UtilEntry × ℤ) → ℚ → Bool → List (UtilEntry × ℤ) × ℚ × Bool
  | [], nb_bits, change => ([], nb_bits, change)
  | e :: rest, nb_bits, change =>
    let r := uniform2Entry budget currentLevel e (nb_bits, change)
    let rr := uniform2Pass budget currentLevel rest r.2.1 r.2.2
    (r.1 :: rr.1, rr.2)

/-- The `while (change)` loop of `uniform2`, raising the shared target level
by one after each pass, with an explicit iteration bound (a pass can only set
`change` when some record still has `currentLevel < nbLevels`, so passes stop
once `currentLevel` passes every record's level count). -/
def uniform2LoopF (budget : ℚ) : ℕ → ℤ → List (UtilEntry × ℤ) → ℚ →
    List (UtilEntry × ℤ) × ℚ
  | 0, _, entries, nb_bits => (entries, nb_bits)
  | fuel + 1, currentLevel, entries, nb_bits =>
    let r := uniform2Pass budget currentLevel entries nb_bits false
    if r.2.2 then uniform2LoopF budget fuel (currentLevel + 1) r.1 r.2.1
    else (r.1, r.2.1)

/-- The largest level count among the records (used only to size the
iteration bound of the `while (change)` loop). -/
def maxNbLevels (entries : List (UtilEntry × ℤ)) : ℕ :=
  entries.foldr (fun e m => max e.1.nbLevels m) 0

/-- The `uniform2` selection phase: records start at
`nextLevel = currentLevel` of their object, the shared target starts at `1`. -/
def uniform2Select (objects : List UtilEntry) (budget : ℚ) :
    List (UtilEntry × ℤ) × ℚ :=
  let entries := objects.map fun o => (o, o.cur)
  uniform2LoopF budget (maxNbLevels entries + 1) 1 entries 0

/-- The `hybrid2` selection phase: the uniform2 lock-step pass on the visible
partition first, then the greedy2 walk on the not-visible partition with the
remaining budget (`nb_bits` carries over). -/
def hybrid2Select (visibles notVisibles : List UtilEntry) (budget : ℚ) :
    (List (UtilEntry × ℤ) × List (UtilEntry × ℤ)) × ℚ :=
  let ventries := visibles.map fun o => (o, o.cur)
  let r1 := uniform2LoopF budget (maxNbLevels ventries + 1) 1 ventries 0
  let r2 := notVisibles.foldl (greedy2Step budget) ([], r1.2)
  ((r1.1, r2.1), r2.2)

/-! ## MuseumObject.import (museum_object.ts)

The state a `MuseumObject` carries that `import` reads or writes:
`metadata.nb_levels`, whether `_init_` has run (`levels`/`asked` arrays
allocated), the `levels` array (a mesh, i.e. truthy, at index `l` iff level
`l` finished importing), the `asked` array, and `currentLevel` (starts at
`-1`).  JavaScript array reads at any integer index outside the written
range yield `undefined` (falsy), so both arrays are total `ℤ → Bool`
functions. -/

/-- Mutable state of one `MuseumObject`. -/
structure ObjState where
  nbLevels : ℕ
  initialized : Bool
  levels : ℤ → Bool
  asked : ℤ → Bool
  currentLevel : ℤ

/-- The distinct errors `import` can throw before, during or after I/O. -/
inductive ImportError where
  | notInitialized      -- "Error : MuseumObject not initialized"
  | outOfBounds         -- "Incorrect Level : Out of Bounds"
  | alreadyRequested    -- "Import warn : Level already requested or imported"
  | fetchFailed         -- rethrown network error
  | decodeFailed        -- rethrown decompression error
deriving DecidableEq

/-- How the asynchronous fetch + decode of one `import` call ends. -/
inductive FetchOutcome where
  | success
  | fetchError
  | decodeError
deriving DecidableEq

/-- The three guards at the top of `import(level)`, in source order:
not initialized, then `level < 0 || level > this.metadata!.nb_levels`
(note: `>`, not `>=`), then `this.levels[level] || this.asked[level]`. -/
def importGuard (s : ObjState) (level : ℤ) : Option ImportError :=
  if s.initialized = false then some .notInitialized
  else if level < 0 ∨ (s.nbLevels : ℤ) < level then some .outOfBounds
  else if s.levels level = true ∨ s.asked level = true then some .alreadyRequested
  else none

/-- `this.asked[level] = true` — executed right after the guards, before the
first `await`. -/
def setAsked (s : ObjState) (level : ℤ) : ObjState :=
  { s with asked := fun l => if l = level then true else s.asked l }

/-- The synchronous prefix of `import`: run the guards and, if they pass,
mark the level requested.  Everything after this point is behind `await`s. -/
def importBegin (s : ObjState) (level : ℤ) : ObjState × Option ImportError :=
  match importGuard s level with
  | some e => (s, some e)
  | none => (setAsked s level, none)

/-- The rest of `import` once the fetch + decode resolve: on failure the
error is rethrown with no further state change (`asked` stays set — no
retry); on success the mesh is stored in `levels[level]` and `currentLevel`
is raised iff `level > this.currentLevel`. -/
def importFinish (s : ObjState) (level : ℤ) (out : FetchOutcome) :
    ObjState × Option ImportError :=
  match out with
  | .fetchError => (s, some .fetchFailed)
  | .decodeError => (s, some .decodeFailed)
  | .success =>
    let s1 := { s with levels := fun l => if l = level then true else s.levels l }
    if s1.currentLevel < level then ({ s1 with currentLevel := level }, none)
    else (s1, none)

/-- The result of one whole `import` call: the new object state, the error
(if the returned promise rejected), and whether any network / decode I/O was
started. -/
structure CallResult where
  state : ObjState
  error : Option ImportError
  ioPerformed : Bool

/-- One whole `import(level)` call whose asynchronous part ends with
outcome `out`. -/
def importCall (s : ObjState) (level : ℤ) (out : FetchOutcome) : CallResult :=
  match importBegin s level with
  | (s1, some e) => { state := s1, error := some e, ioPerformed := false }
  | (s1, none) =>
    let r := importFinish s1 level out
    { state := r.1, error := r.2, ioPerformed := true }

/-- A sequence of completed `import` calls applied to an object. -/
def runImports (s : ObjState) (calls : List (ℤ × FetchOutcome)) : ObjState :=
  calls.foldl (fun st c => (importCall st c.1 c.2).state) s

/-- The state of a `MuseumObject` right after `_init_` succeeded: arrays
allocated and all-false, `currentLevel = -1`. -/
def initObj (nbLevels : ℕ) : ObjState :=
  { nbLevels := nbLevels
    initialized := true
    levels := fun _ => false
    asked := fun _ => false
    currentLevel := -1 }

/-! ## ObjectManager (object_manager.ts) -/

/-- The `ObjectManager` state `anim_import` reads or writes. -/
structure MgrState where
  import_started : Bool
  objects : List ObjState

/-- `ObjectManager.checkAllLoaded`: true iff every object's top level
`getLevel(getNumberOfLevels() - 1)` is a mesh. -/
def checkAllLoaded (objects : List ObjState) : Bool :=
  objects.all fun o => o.levels ((o.nbLevels : ℤ) - 1)

/-- `ObjectManager.anim_import`, with the strategy execution abstracted as a
function from the objects to (new objects, number of `fetchLevel` calls
issued).  When the guard `!this.import_started && !this.checkAllLoaded()`
fails the call returns immediately: nothing is scheduled, no fetch is
issued, and the call is not recorded anywhere for later (dropped).  When it
passes, `import_started` is `true` for the whole strategy run and is reset
to `false` just before returning. -/
def anim_import (strat : List ObjState → List ObjState × ℕ) (s : MgrState) :
    MgrState × ℕ :=
  if s.import_started = false ∧ checkAllLoaded s.objects = false then
    let r := strat s.objects
    ({ import_started := false, objects := r.1 }, r.2)
  else (s, 0)

/-! ## Metrics.distance (metrics.ts) -/

/-- A 3-component vector of rationals (Babylon `Vector3`). -/
structure V3 where
  x : ℚ
  y : ℚ
  z : ℚ
deriving DecidableEq

/-- `Vector3.scale`. -/
def vScale (v : V3) (k : ℚ) : V3 := ⟨v.x * k, v.y * k, v.z * k⟩

/-- `Vector3.add`. -/
def vAdd (a b : V3) : V3 := ⟨a.x + b.x, a.y + b.y, a.z + b.z⟩

/-- `Vector3.lengthSquared`. -/
def vLengthSquared (v : V3) : ℚ := v.x * v.x + v.y * v.y + v.z * v.z

/-- `Metrics.distance`: the inverse squared length of
`objPosition.scale(-1).add(camPosition)`. -/
def distanceMetric (objPosition camPosition : V3) : ℚ :=
  1 / vLengthSquared (vAdd (vScale objPosition (-1)) camPosition)

/-! ## naive1 / greedy1 / proposed1 (strategies.ts)

The three single-candidate strategies loop over the visible objects and, for
each, over the levels `j = currentLevel, …, getNumberOfLevels() - 1`,
scoring the non-loaded ones.  What a strategy reads from an object:
`getNumberOfLevels`, `getLevel` truthiness, `getLevelQuality`,
`getLevelSize`, `currentLevel`, and the utility `Metrics.calcUtility` gives
it against the current camera (`utilNow`) or against the camera predicted
`Δt` seconds ahead (`utilAt Δt`, for `camera_manager.getCameraInTime(Δt)`);
the camera prediction and metric internals are opaque here.  The ghost field
`scored` records every candidate whose score the loop actually computed,
together with the object's `currentLevel` at pass start. -/

/-- What a strategy pass reads from one visible `MuseumObject`. -/
structure NObj where
  nbLevels : ℕ
  loaded : ℤ → Bool
  quality : ℤ → ℚ
  size : ℤ → ℚ
  cur : ℤ
  utilNow : ℚ
  utilAt : ℚ → ℚ

/-- A candidate whose score was computed: object index in the visibles list,
that object's `currentLevel` at pass start, the level, the score. -/
structure Scored where
  objIdx : ℕ
  cur : ℤ
  level : ℤ
  score : ℚ
deriving DecidableEq

/-- Running best of naive1 / greedy1: `newLevel`, `bestUtility`,
`bestObject` (as index), `bestLevel`, the best object's `currentLevel` at
pass start (ghost), and the log of scored candidates (ghost). -/
structure Best where
  found : Bool
  utility : ℚ
  obj : ℕ
  level : ℤ
  selCur : ℤ
  scored : List Scored
deriving DecidableEq

/-- `bestUtility = -1`, `bestObject = visibles[0]`, `bestLevel = 0`,
`newLevel = false`. -/
def initBest : Best :=
  { found := false, utility := -1, obj := 0, level := 0, selCur := 0, scored := [] }

/-- Score `u` for candidate `(i, j)` of object `o`: log it and take it as
new best iff `u > bestUtility`. -/
def updateBest (b : Best) (o : NObj) (i : ℕ) (j : ℤ) (u : ℚ) : Best :=
  let b1 := { b with scored := b.scored ++ [⟨i, o.cur, j, u⟩] }
  if b1.utility < u then
    { b1 with found := true, utility := u, obj := i, level := j, selCur := o.cur }
  else b1

/-- naive1's inner `for (let j = currentObject.currentLevel; j < nbLevels;
j++)` loop: score `getLevelQuality(j) * calcUtility(obj, camera)` for each
non-loaded level. -/
def naive1LevelsF (o : NObj) (i : ℕ) : ℕ → ℤ → Best → Best
  | 0, _, b => b
  | fuel + 1, j, b =>
    if j < (o.nbLevels : ℤ) then
      let b1 :=
        if o.loaded j = false then updateBest b o i j (o.quality j * o.utilNow)
        else b
      naive1LevelsF o i fuel (j + 1) b1
    else b

/-- The naive1 selection pass over the visible objects. -/
def naive1Select (visibles : List NObj) : Best :=
  (visibles.enum).foldl
    (fun b p => naive1LevelsF p.2 p.1 ((p.2.nbLevels : ℤ) + 1 - p.2.cur).toNat p.2.cur b)
    initBest

/-- `t_next`: predicted seconds to fetch then decompress level `j`,
`getLevelSize(j) * (1 / bandwidth + 1 / dSpeed)`. -/
def tNext (o : NObj) (bw ds : ℚ) (j : ℤ) : ℚ :=
  o.size j * (1 / bw + 1 / ds)

/-- greedy1's inner loop: score
`calcUtility(obj, cameraAt t_next) * getLevelQuality(j) / t_next` for each
non-loaded level. -/
def greedy1LevelsF (bw ds : ℚ) (o : NObj) (i : ℕ) : ℕ → ℤ → Best → Best
  | 0, _, b => b
  | fuel + 1, j, b =>
    if j < (o.nbLevels : ℤ) then
      let b1 :=
        if o.loaded j = false then
          let t_next := tNext o bw ds j
          updateBest b o i j (o.utilAt t_next * o.quality j / t_next)
        else b
      greedy1LevelsF bw ds o i fuel (j + 1) b1
    else b

/-- The greedy1 selection pass over the visible objects. -/
def greedy1Select (bw ds : ℚ) (visibles : List NObj) : Best :=
  (visibles.enum).foldl
    (fun b p =>
      greedy1LevelsF bw ds p.2 p.1 ((p.2.nbLevels : ℤ) + 1 - p.2.cur).toNat p.2.cur b)
    initBest

/-- `Strategies.HORIZON`, used by greedy1 and proposed1. -/
def HORIZON : ℚ := 2

/-- Running state of proposed1: the integral-based best (`bestUtility`,
`bestObject`, `bestLevel`) and the instantaneous fallback best
(`bestUtility2`, `bestObject2`, `bestLevel2`), both with their object's
pass-start `currentLevel` as ghost data, plus the scored log. -/
structure Best2 where
  found : Bool
  utility : ℚ
  obj : ℕ
  level : ℤ
  selCur : ℤ
  utility2 : ℚ
  obj2 : ℕ
  level2 : ℤ
  selCur2 : ℤ
  scored : List Scored
deriving DecidableEq

/-- Initial proposed1 state (both utilities `-1`, both bests `visibles[0]`
level `0`). -/
def initBest2 : Best2 :=
  { found := false, utility := -1, obj := 0, level := 0, selCur := 0
    utility2 := -1, obj2 := 0, level2 := 0, selCur2 := 0, scored := [] }

/-- proposed1's Riemann sum: `Σ_{t=0}^{3} increment * utilAt (t_next + t *
increment)`. -/
def riemannSum (o : NObj) (t_next increment : ℚ) : ℚ :=
  (List.range 4).foldl
    (fun acc t => acc + increment * o.utilAt (t_next + (t : ℚ) * increment)) 0

/-- proposed1's inner loop: when the remaining horizon is positive, score the
Riemann-sum utility times quality against the integral best; otherwise, only
while no integral best exists (`bestUtility == -1`), score the greedy1-style
instantaneous utility against the fallback best. -/
def proposed1LevelsF (bw ds : ℚ) (o : NObj) (i : ℕ) : ℕ → ℤ → Best2 → Best2
  | 0, _, b => b
  | fuel + 1, j, b =>
    if j < (o.nbLevels : ℤ) then
      let b1 :=
        if o.loaded j = false then
          let t_next := tNext o bw ds j
          let increment := (HORIZON - t_next) / 4
          if 0 < increment then
            let u := riemannSum o t_next increment * o.quality j
            let b2 := { b with scored := b.scored ++ [⟨i, o.cur, j, u⟩] }
            if b2.utility < u then
              { b2 with found := true, utility := u, obj := i, level := j, selCur := o.cur }
            else b2
          else if b.utility = -1 then
            let u := o.utilAt t_next * o.quality j / t_next
            let b2 := { b with scored := b.scored ++ [⟨i, o.cur, j, u⟩] }
            if b2.utility2 < u then
              { b2 with found := true, utility2 := u, obj2 := i, level2 := j, selCur2 := o.cur }
            else b2
          else b
        else b
      proposed1LevelsF bw ds o i fuel (j + 1) b1
    else b

/-- The proposed1 selection pass over the visible objects. -/
def proposed1Select (bw ds : ℚ) (visibles : List NObj) : Best2 :=
  (visibles.enum).foldl
    (fun b p =>
      proposed1LevelsF bw ds p.2 p.1 ((p.2.nbLevels : ℤ) + 1 - p.2.cur).toNat p.2.cur b)
    initBest2

/-- proposed1's download phase: with `newLevel` set, import the integral best
if one was found (`bestUtility != -1`), else the fallback best. -/
def proposed1Pick (b : Best2) : Option (ℕ × ℤ) :=
  if b.found then
    if b.utility ≠ -1 then some (b.obj, b.level) else some (b.obj2, b.level2)
  else none

/-! ## ConvexHull (convex_hull.ts) and the visible metric guard (metrics.ts)

`computeConvexHull` sorts the `Vector2` array in place with the comparator
`v1.x - v2.x` (a stable sort by `x`), then gift-wraps, comparing points with
JavaScript `==` — reference equality on `Vector2` objects.  The `corners`
array the metrics pass in holds freshly constructed `Vector2`s, so two
entries are `==` only if they are the same array element, even when their
coordinates coincide.  A point is therefore modelled with an identity tag
`oid` (unique per constructed object) next to its coordinates, `==` compares
tags, and coordinate arithmetic uses the coordinates. -/

/-- A `Vector2` object: identity tag plus coordinates. -/
structure Vec2 where
  oid : ℕ
  x : ℚ
  y : ℚ
deriving DecidableEq

/-- JavaScript `==` on two `Vector2` objects: reference equality. -/
def jsEq (p q : Vec2) : Bool := p.oid == q.oid

/-- `points.sort((v1, v2) => v1.x - v2.x)`: a stable sort by the `x`
coordinate (ECMAScript sorts are stable; insertion sort with `≤` on the key
is stable). -/
def jsSortByX (points : List Vec2) : List Vec2 :=
  points.insertionSort fun p q => p.x ≤ q.x

/-- `ConvexHull.isBetterPoint`: the orientation test
`(q.y - p.y) * (r.x - q.x) - (q.x - p.x) * (r.y - q.y) < 0` with
`p = origin`, `q = pointToTest`, `r = pointToCompareTo`. -/
def isBetterPoint (pointToTest pointToCompareTo origin : Vec2) : Bool :=
  let p := origin
  let q := pointToTest
  let r := pointToCompareTo
  decide ((q.y - p.y) * (r.x - q.x) - (q.x - p.x) * (r.y - q.y) < 0)

/-- The inner `for (const v of points)` endpoint search of the gift wrap:
`endpoint` starts at `points[0]` and is replaced by `v` whenever
`endpoint == pointOnHull` or `v` is a better point. -/
def selectEndpoint (points : List Vec2) (pointOnHull e0 : Vec2) : Vec2 :=
  points.foldl
    (fun endpoint v =>
      if jsEq endpoint pointOnHull || isBetterPoint v endpoint pointOnHull then v
      else endpoint)
    e0

/-- The `do { … } while (endpoint != firstPoint)` wrap.  After the sort,
`firstPoint = points[0]`, so each iteration's `endpoint = points[0]` reset is
`firstPoint`.  The iteration bound (one more than the point count) covers
every terminating run of the source loop — a hull never repeats a vertex
before closing. -/
def giftWrapF (points : List Vec2) (firstPoint : Vec2) :
    ℕ → Vec2 → List Vec2 → List Vec2
  | 0, _, hull => hull
  | fuel + 1, pointOnHull, hull =>
    let hull1 := hull ++ [pointOnHull]
    let endpoint := selectEndpoint points pointOnHull firstPoint
    if jsEq endpoint firstPoint then hull1
    else giftWrapF points firstPoint fuel endpoint hull1

/-- `ConvexHull.computeConvexHull`: sort by `x`, then gift-wrap from the
leftmost point. -/
def computeConvexHull (points : List Vec2) : List Vec2 :=
  let sorted := jsSortByX points
  match sorted with
  | [] => []
  | p0 :: _ => giftWrapF sorted p0 (sorted.length + 1) p0 []

/-- `ConvexHull.vector2ToPolygon`: the hull as a single ring of coordinate
pairs. -/
def vector2ToPolygon (points : List Vec2) : List (ℚ × ℚ) :=
  points.map fun v => (v.x, v.y)

/-- Is `p` inside the closed half-plane `a * x + b * y ≤ c` (the half-plane
encoded as `(a, b, c)`)? -/
def inHalfPlane (e : ℚ × ℚ × ℚ) (p : ℚ × ℚ) : Bool :=
  decide (e.1 * p.1 + e.2.1 * p.2 ≤ e.2.2)

/-- The point where segment `s`–`q` meets the boundary line
`a * x + b * y = c` of a half-plane. -/
def edgeCross (e : ℚ × ℚ × ℚ) (s q : ℚ × ℚ) : ℚ × ℚ :=
  let fs := e.1 * s.1 + e.2.1 * s.2
  let fq := e.1 * q.1 + e.2.1 * q.2
  let t := (e.2.2 - fs) / (fq - fs)
  (s.1 + t * (q.1 - s.1), s.2 + t * (q.2 - s.2))

/-- The cyclic edge list of a polygon: each vertex paired with its
predecessor. -/
def cyclePairs (poly : List (ℚ × ℚ)) : List ((ℚ × ℚ) × (ℚ × ℚ)) :=
  match poly with
  | [] => []
  | p :: ps => ((p :: ps).getLastD p :: (p :: ps).dropLast).zip (p :: ps)

/-- Clip a polygon against one half-plane (one Sutherland–Hodgman step). -/
def clipHalfPlane (e : ℚ × ℚ × ℚ) (poly : List (ℚ × ℚ)) : List (ℚ × ℚ) :=
  (cyclePairs poly).foldl
    (fun acc sq =>
      if inHalfPlane e sq.2 then
        if inHalfPlane e sq.1 then acc ++ [sq.2]
        else acc ++ [edgeCross e sq.1 sq.2, sq.2]
      else
        if inHalfPlane e sq.1 then acc ++ [edgeCross e sq.1 sq.2]
        else acc)
    []

/-- The four half-planes of the unit screen square
`[[0,0],[1,0],[1,1],[0,1]]`. -/
def screenHalfPlanes : List (ℚ × ℚ × ℚ) :=
  [(-1, 0, 0), (1, 0, 1), (0, -1, 0), (0, 1, 1)]

/-- Modelled from the spec: the `polygon-clipping` package's
`intersection(hullAsPolygon, screenPolygon)` is not part of this repository;
per §4.3 the hull polygon is intersected with the unit square via polygon
clipping, producing a multipolygon whose rings are closed (first point
repeated last).  Sutherland–Hodgman clipping against the four sides of the
unit square, the result packaged as a one-polygon multipolygon (empty when
the clip is empty). -/
def intersectionUnitSquare (ring : List (ℚ × ℚ)) : List (List (List (ℚ × ℚ))) :=
  let clipped := screenHalfPlanes.foldl (fun poly e => clipHalfPlane e poly) ring
  match clipped with
  | [] => []
  | p :: ps => [[(p :: ps) ++ [p]]]

/-- The shoelace accumulation of `ConvexHull.polygonSurface`: for `i = 1, …`
add `nodelist[i-1][0] * nodelist[i][1] - nodelist[i-1][1] * nodelist[i][0]`. -/
def shoelace (nodelist : List (ℚ × ℚ)) : ℚ :=
  (nodelist.zip nodelist.tail).foldl
    (fun surface pq => surface + (pq.1.1 * pq.2.2 - pq.1.2 * pq.2.1)) 0

/-- `ConvexHull.polygonSurface`: `0` unless the multipolygon has a first
polygon with a first ring; else half the absolute shoelace sum of that
ring. -/
def polygonSurface (polygon : List (List (List (ℚ × ℚ)))) : ℚ :=
  match polygon with
  | (nodelist :: _) :: _ => |shoelace nodelist| / 2
  | _ => 0

/-- `ConvexHull.getSurfaceOnScreen`: hull, clip against the screen square,
area. -/
def getSurfaceOnScreen (points : List Vec2) : ℚ :=
  let hull := computeConvexHull points
  let hullAsPolygon := vector2ToPolygon hull
  polygonSurface (intersectionUnitSquare hullAsPolygon)

/-- The tail of `Metrics.visible` (and of `Metrics.potential`) once the
bounding-box corners with `to2D.z >= 0` have been collected: `0` when two or
fewer corners survive the projection, else the clipped hull area. -/
def visibleScore (corners : List Vec2) : ℚ :=
  if corners.length ≤ 2 then 0 else getSurfaceOnScreen corners

/-! ## Concrete scenario inputs -/

/-- Scenario object A (spec §8): at distance 2 from the camera at the
origin, level 0 loaded, level 1 unrequested with quality `0.9`. -/
def objA : NObj :=
  { nbLevels := 2
    loaded := fun l => l = 0
    quality := fun l => if l = 0 then 1 else 9 / 10
    size := fun _ => 1
    cur := 0
    utilNow := distanceMetric ⟨2, 0, 0⟩ ⟨0, 0, 0⟩
    utilAt := fun _ => 0 }

/-- Scenario object B (spec §8): at distance 10, level 0 loaded, level 1
unrequested with quality `0.95`. -/
def objB : NObj :=
  { nbLevels := 2
    loaded := fun l => l = 0
    quality := fun l => if l = 0 then 1 else 19 / 20
    size := fun _ => 1
    cur := 0
    utilNow := distanceMetric ⟨10, 0, 0⟩ ⟨0, 0, 0⟩
    utilAt := fun _ => 0 }

/-- A small object for exercising the budget-bounded walks: three levels of
one byte each, level 0 already downloaded. -/
def sampleEntry : UtilEntry :=
  { nbLevels := 3, size := fun _ => 1, loaded := fun l => l = 0, cur := 0 }

/-- A fully loaded one-level object (for exercising `checkAllLoaded`). -/
def loadedObj : ObjState :=
  { nbLevels := 1
    initialized := true
    levels := fun _ => true
    asked := fun _ => true
    currentLevel := 0 }

/-- A strategy stub that schedules nothing (for exercising `anim_import`). -/
def stratNone : List ObjState → List ObjState × ℕ := fun objs => (objs, 0)

/-- Projected bounding-box corner at the origin — first of two `Vector2`
objects constructed at the same coordinates. -/
def p1 : Vec2 := ⟨0, 0, 0⟩

/-- Second `Vector2` object at the origin: distinct identity (JavaScript
`==` distinguishes it from `p1`), equal coordinates. -/
def p2 : Vec2 := ⟨1, 0, 0⟩

/-- Corner at `(1, 0)`. -/
def p3 : Vec2 := ⟨2, 1, 0⟩

/-- Corner at `(0, 1)`. -/
def p4 : Vec2 := ⟨3, 0, 1⟩

/-!
# Theorems
-/

/-! ## SpeedManager lemmas -/

theorem shiftWhileTooLong_eq_drop (l : List ℚ) :
    shiftWhileTooLong l = l.drop (l.length - ELEMENTS_IN_QUEUES) := by
  induction l with
  | nil => rw [shiftWhileTooLong]; simp
  | cons a t ih =>
    rw [shiftWhileTooLong]
    by_cases h : ELEMENTS_IN_QUEUES < (a :: t).length
    · rw [if_pos h]
      simp only [List.tail_cons]
      rw [ih]
      have h10 : (a :: t).length - ELEMENTS_IN_QUEUES
          = (t.length - ELEMENTS_IN_QUEUES) + 1 := by
        simp only [List.length_cons] at *
        omega
      rw [h10, List.drop_succ_cons]
    · rw [if_neg h]
      have h0 : (a :: t).length - ELEMENTS_IN_QUEUES = 0 := by omega
      rw [h0, List.drop_zero]

theorem pushBandwidth_lastWindow (p : List ℚ) (x : ℚ) :
    pushBandwidth (lastWindow ELEMENTS_IN_QUEUES p) x
      = lastWindow ELEMENTS_IN_QUEUES (p ++ [x]) := by
  unfold pushBandwidth lastWindow
  rw [shiftWhileTooLong_eq_drop]
  rw [List.drop_append_eq_append_drop, List.drop_append_eq_append_drop,
    List.drop_drop]
  have e10 : ELEMENTS_IN_QUEUES = 10 := rfl
  congr 1
  · congr 1
    simp only [List.length_append, List.length_drop, List.length_cons,
      List.length_nil, e10]
    omega
  · congr 1
    simp only [List.length_append, List.length_drop, List.length_cons,
      List.length_nil, e10]
    omega

theorem foldl_pushBandwidth_eq_lastWindow (samples : List ℚ) :
    samples.foldl pushBandwidth [] = lastWindow ELEMENTS_IN_QUEUES samples := by
  induction samples using List.reverseRecOn with
  | nil => rfl
  | append_singleton s x ih =>
    rw [List.foldl_append, List.foldl_cons, List.foldl_nil, ih,
      pushBandwidth_lastWindow]

theorem foldl_add_eq_add_sum (l : List ℚ) : ∀ a : ℚ, l.foldl (· + ·) a = a + l.sum := by
  induction l with
  | nil => intro a; simp
  | cons x t ih => intro a; simp only [List.foldl_cons, List.sum_cons, ih, add_assoc]

theorem lastWindow_length (n : ℕ) (l : List ℚ) :
    (lastWindow n l).length = min l.length n := by
  simp only [lastWindow, List.length_drop]
  omega

/-- C7: The throughput estimator's getters return the arithmetic mean of the
last `min n 10` pushed samples — the internal queue after any sequence of
pushes is exactly the window of the most recent `min n 10` samples, the
oldest being evicted beyond capacity `10` — and both getters return the
default `100` on an empty history. -/
theorem speedManager_window_mean (samples dsamples : List ℚ) :
    samples.foldl pushBandwidth [] = lastWindow ELEMENTS_IN_QUEUES samples ∧
    (lastWindow ELEMENTS_IN_QUEUES samples).length
      = min samples.length ELEMENTS_IN_QUEUES ∧
    getBandwidth (samples.foldl pushBandwidth [])
      = (if samples = [] then 100
         else (lastWindow ELEMENTS_IN_QUEUES samples).sum
              / ((lastWindow ELEMENTS_IN_QUEUES samples).length : ℚ)) ∧
    getDSpeed (dsamples.foldl pushDSpeed [])
      = (if dsamples = [] then 100
         else (lastWindow ELEMENTS_IN_QUEUES dsamples).sum
              / ((lastWindow ELEMENTS_IN_QUEUES dsamples).length : ℚ)) := by
  have hds : pushDSpeed = pushBandwidth := rfl
  have hget : getDSpeed = getBandwidth := rfl
  have main : ∀ l : List ℚ,
      getBandwidth (l.foldl pushBandwidth [])
        = (if l = [] then 100
           else (lastWindow ELEMENTS_IN_QUEUES l).sum
                / ((lastWindow ELEMENTS_IN_QUEUES l).length : ℚ)) := by
    intro l
    rw [foldl_pushBandwidth_eq_lastWindow]
    unfold getBandwidth
    by_cases hl : l = []
    · subst hl; simp [lastWindow]
    · have hlpos : l.length ≠ 0 := by simpa [List.length_eq_zero] using hl
      have hlen : (lastWindow ELEMENTS_IN_QUEUES l).length ≠ 0 := by
        rw [lastWindow_length]
        simp only [ELEMENTS_IN_QUEUES]
        omega
      simp only [if_neg hlen, if_neg hl, foldl_add_eq_add_sum, zero_add]
  refine ⟨foldl_pushBandwidth_eq_lastWindow samples, lastWindow_length _ samples,
    main samples, ?_⟩
  rw [hds, hget]
  exact main dsamples

/-! ## C1: the per-tick budget vs the spec's harmonic mean -/

/-- C1 counterexample: with an empty throughput history both estimators
return the default `100`, and the budget the strategies compute is
`100·100/(100+100) · 2 = 100`, not `harmonicMean(100,100) · 2 = 200` —
the code multiplies `bw·ds/(bw+ds)` (half the harmonic mean) by `BUFFER`. -/
theorem strategyBudget_empty_history_ne_spec :
    strategyBudget (getBandwidth []) (getDSpeed []) = 100 ∧
    specHarmonicMean (getBandwidth []) (getDSpeed []) * BUFFER = 200 ∧
    strategyBudget (getBandwidth []) (getDSpeed [])
      ≠ specHarmonicMean (getBandwidth []) (getDSpeed []) * BUFFER := by
  refine ⟨?_, ?_, ?_⟩ <;>
    norm_num [strategyBudget, specHarmonicMean, getBandwidth, getDSpeed, BUFFER]

/-- C1 (amended): the per-tick byte budget of Greedy2 / Uniform2 / Hybrid2
equals half the harmonic mean of the current bandwidth and decode-rate
estimates multiplied by the buffer length (`BUFFER = 2`); in particular with
an empty throughput history (both estimators returning the default `100`)
the budget equals `harmonicMean(100,100) / 2 × 2 = 100`. -/
theorem strategyBudget_is_half_harmonic (bwQueue dsQueue : List ℚ) :
    strategyBudget (getBandwidth bwQueue) (getDSpeed dsQueue)
      = specHarmonicMean (getBandwidth bwQueue) (getDSpeed dsQueue) / 2 * BUFFER ∧
    strategyBudget (getBandwidth []) (getDSpeed []) = 100 := by
  constructor
  · unfold strategyBudget specHarmonicMean
    ring
  · norm_num [strategyBudget, getBandwidth, getDSpeed, BUFFER]

/-! ## C2: the selection phases never exceed the budget -/

theorem greedyBumpF_le (o : UtilEntry) (budget : ℚ) :
    ∀ (fuel : ℕ) (nl : ℤ) (nb : ℚ), nb ≤ budget →
      (greedyBumpF o budget fuel nl nb).2 ≤ budget := by
  intro fuel
  induction fuel with
  | zero => intro nl nb h; exact h
  | succ f ih =>
    intro nl nb h
    simp only [greedyBumpF]
    split
    · split
      · exact h
      · rename_i hb
        exact ih _ _ (le_of_not_lt hb)
    · exact h

theorem greedy2Step_le (budget : ℚ) (acc : List (UtilEntry × ℤ) × ℚ)
    (o : UtilEntry) (h : acc.2 ≤ budget) : (greedy2Step budget acc o).2 ≤ budget :=
  greedyBumpF_le o budget _ _ _ h

theorem greedyFold_le (budget : ℚ) (objs : List UtilEntry) :
    ∀ acc : List (UtilEntry × ℤ) × ℚ, acc.2 ≤ budget →
      (objs.foldl (greedy2Step budget) acc).2 ≤ budget := by
  induction objs with
  | nil => intro acc h; exact h
  | cons o rest ih =>
    intro acc h
    rw [List.foldl_cons]
    exact ih _ (greedy2Step_le budget acc o h)

theorem uniform2Entry_le (budget : ℚ) (cl : ℤ) (e : UtilEntry × ℤ)
    (st : ℚ × Bool) (h : st.1 ≤ budget) :
    ((uniform2Entry budget cl e st).2).1 ≤ budget := by
  simp only [uniform2Entry]
  split
  · split
    · exact h
    · rename_i hb
      split
      · exact le_of_not_lt hb
      · exact h
  · exact h

theorem uniform2Pass_le (budget : ℚ) (cl : ℤ) :
    ∀ (es : List (UtilEntry × ℤ)) (nb : ℚ) (ch : Bool), nb ≤ budget →
      ((uniform2Pass budget cl es nb ch).2).1 ≤ budget := by
  intro es
  induction es with
  | nil => intro nb ch h; exact h
  | cons e rest ih =>
    intro nb ch h
    simp only [uniform2Pass]
    exact ih _ _ (uniform2Entry_le budget cl e (nb, ch) h)

theorem uniform2LoopF_le (budget : ℚ) :
    ∀ (fuel : ℕ) (cl : ℤ) (es : List (UtilEntry × ℤ)) (nb : ℚ), nb ≤ budget →
      (uniform2LoopF budget fuel cl es nb).2 ≤ budget := by
  intro fuel
  induction fuel with
  | zero => intro cl es nb h; exact h
  | succ f ih =>
    intro cl es nb h
    simp only [uniform2LoopF]
    split
    · exact ih _ _ _ (uniform2Pass_le budget cl es nb false h)
    · exact uniform2Pass_le budget cl es nb false h

/-- C2: for every run of the Greedy2, Uniform2 and Hybrid2 selection
phases, the accumulated incremental byte cost `nb_bits` of the scheduled
upgrades never exceeds the budget computed at the start of the pass (the
records may be in any utility order). -/
theorem selection_nb_bits_le_budget (objects visibles notVisibles : List UtilEntry)
    (budget : ℚ) (hb : 0 ≤ budget) :
    (greedy2Select objects budget).2 ≤ budget ∧
    (uniform2Select objects budget).2 ≤ budget ∧
    (hybrid2Select visibles notVisibles budget).2 ≤ budget := by
  refine ⟨greedyFold_le budget objects ([], 0) hb,
    uniform2LoopF_le budget _ _ _ _ hb, ?_⟩
  exact greedyFold_le budget notVisibles _ (uniform2LoopF_le budget _ _ _ _ hb)

/-- Witness for C2 at a concrete input: one three-level object, budget 2. -/
theorem selection_nb_bits_le_budget_witness :
    (0 : ℚ) ≤ 2 ∧
    (greedy2Select [sampleEntry] 2).2 ≤ 2 ∧
    (uniform2Select [sampleEntry] 2).2 ≤ 2 ∧
    (hybrid2Select [sampleEntry] [sampleEntry] 2).2 ≤ 2 :=
  ⟨by norm_num,
    (selection_nb_bits_le_budget [sampleEntry] [sampleEntry] [sampleEntry] 2
      (by norm_num)).1,
    (selection_nb_bits_le_budget [sampleEntry] [sampleEntry] [sampleEntry] 2
      (by norm_num)).2.1,
    (selection_nb_bits_le_budget [sampleEntry] [sampleEntry] [sampleEntry] 2
      (by norm_num)).2.2⟩

/-! ## C3: the bounds guard of `import` -/

/-- C3 (code bug): the guard of `import` tests `level > nb_levels` instead
of `level >= nb_levels`, so the out-of-range index `level = nbLevels` — here
`1` on a freshly initialized one-level object — passes every guard
(`importGuard = none`) and the call proceeds to read the nonexistent
metadata entry `Levels[nb_levels]`; indices `-1` and `nbLevels + 1` are
rejected as out of bounds, as is any request on an uninitialized object or
for an already-requested level. -/
theorem importGuard_accepts_index_nbLevels :
    importGuard (initObj 1) 1 = none ∧
    importGuard (initObj 1) (-1) = some .outOfBounds ∧
    importGuard (initObj 1) 2 = some .outOfBounds ∧
    importGuard { initObj 1 with initialized := false } 0 = some .notInitialized ∧
    importGuard (setAsked (initObj 1) 0) 0 = some .alreadyRequested := by
  refine ⟨rfl, rfl, rfl, rfl, rfl⟩

/-! ## C4: each level is requested at most once -/

theorem importGuard_none_iff (s : ObjState) (level : ℤ) :
    importGuard s level = none ↔
      s.initialized = true ∧ ¬(level < 0 ∨ (s.nbLevels : ℤ) < level) ∧
      s.levels level = false ∧ s.asked level = false := by
  unfold importGuard
  split_ifs with h1 h2 h3
  · simp_all
  · simp_all
  · constructor
    · intro h; cases h
    · rintro ⟨-, -, hl, ha⟩
      rcases h3 with h | h
      · rw [hl] at h; cases h
      · rw [ha] at h; cases h
  · simp_all [Bool.not_eq_true]

theorem importFinish_asked (s : ObjState) (level : ℤ) (out : FetchOutcome) :
    ((importFinish s level out).1).asked = s.asked := by
  cases out with
  | success =>
    simp only [importFinish]
    split <;> rfl
  | fetchError => rfl
  | decodeError => rfl

/-- C4: the requested flag `asked[i]` goes from `false` to `true` exactly
once: (1) a call on an already-requested level throws, changes nothing, and
performs no network or decode I/O; (2) the flag is raised by the synchronous
prefix of the first accepted call, before its first `await` — so a second
call always finds it set, even while the first is still pending; (3) a set
flag is never cleared; (4) an unset flag is set only by the accepted call
for exactly that level. -/
theorem import_requests_level_once (s : ObjState) (level l : ℤ) (out : FetchOutcome) :
    (s.asked level = true →
      (importCall s level out).state = s ∧
      (importCall s level out).ioPerformed = false ∧
      (importCall s level out).error ≠ none) ∧
    ((importBegin s level).2 = none → ((importBegin s level).1).asked level = true) ∧
    (s.asked l = true → ((importCall s level out).state).asked l = true) ∧
    (s.asked l = false → ((importCall s level out).state).asked l = true →
      l = level ∧ importGuard s level = none) := by
  refine ⟨?_, ?_, ?_, ?_⟩
  · intro ha
    have hg : importGuard s level ≠ none := by
      intro h
      exact absurd ((importGuard_none_iff s level).1 h).2.2.2 (by simp [ha])
    rcases hne : importGuard s level with - | e
    · exact absurd hne hg
    · simp [importCall, importBegin, hne]
  · intro h
    rcases hne : importGuard s level with - | e
    · simp [importBegin, hne, setAsked]
    · rw [importBegin, hne] at h; cases h
  · intro ha
    rcases hne : importGuard s level with - | e
    · simp only [importCall, importBegin, hne, importFinish_asked, setAsked]
      split_ifs <;> simp [ha]
    · simpa [importCall, importBegin, hne] using ha
  · intro ha hset
    rcases hne : importGuard s level with - | e
    · refine ⟨?_, rfl⟩
      simp only [importCall, importBegin, hne, importFinish_asked, setAsked] at hset
      by_contra hll
      rw [if_neg hll] at hset
      rw [ha] at hset
      cases hset
    · rw [importCall, importBegin, hne] at hset
      simp only at hset
      rw [ha] at hset
      cases hset

/-- Witness for C4 at a concrete input: the object has requested level 0,
and a second `import(0)` call is rejected without I/O. -/
theorem import_requests_level_once_witness :
    ((importCall (setAsked (initObj 1) 0) 0 .success).state = setAsked (initObj 1) 0 ∧
     (importCall (setAsked (initObj 1) 0) 0 .success).ioPerformed = false ∧
     (importCall (setAsked (initObj 1) 0) 0 .success).error ≠ none) ∧
    ((importBegin (initObj 1) 0).1).asked 0 = true :=
  ⟨(import_requests_level_once (setAsked (initObj 1) 0) 0 0 .success).1 rfl,
   (import_requests_level_once (initObj 1) 0 0 .success).2.1 rfl⟩

/-! ## C5: `currentLevel` is monotone and stays below the requested levels -/

theorem importCall_currentLevel_mono (s : ObjState) (level : ℤ) (out : FetchOutcome) :
    s.currentLevel ≤ ((importCall s level out).state).currentLevel := by
  rcases hne : importGuard s level with - | e
  · cases out with
    | success =>
      simp only [importCall, importBegin, hne, importFinish]
      split_ifs with h
      · exact le_of_lt h
      · exact le_refl _
    | fetchError => simp [importCall, importBegin, hne, importFinish, setAsked]
    | decodeError => simp [importCall, importBegin, hne, importFinish, setAsked]
  · simp [importCall, importBegin, hne]

theorem runImports_currentLevel_mono (calls : List (ℤ × FetchOutcome)) :
    ∀ s : ObjState, s.currentLevel ≤ (runImports s calls).currentLevel := by
  induction calls with
  | nil => intro s; exact le_refl _
  | cons c rest ih =>
    intro s
    exact le_trans (importCall_currentLevel_mono s c.1 c.2)
      (ih (importCall s c.1 c.2).state)

theorem importCall_currentLevel_asked (s : ObjState) (level : ℤ) (out : FetchOutcome)
    (h : s.currentLevel = -1 ∨ s.asked s.currentLevel = true) :
    ((importCall s level out).state).currentLevel = -1 ∨
      ((importCall s level out).state).asked
        (((importCall s level out).state).currentLevel) = true := by
  rcases hne : importGuard s level with - | e
  · cases out with
    | success =>
      simp only [importCall, importBegin, hne, importFinish, setAsked]
      split_ifs with hlt
      · right; simp
      · rcases h with h | h
        · left; exact h
        · right; simp only
          split_ifs with hc
          · rfl
          · exact h
    | fetchError =>
      simp only [importCall, importBegin, hne, importFinish, setAsked]
      rcases h with h | h
      · left; exact h
      · right
        by_cases hc : s.currentLevel = level
        · simp [hc]
        · simp [hc, h]
    | decodeError =>
      simp only [importCall, importBegin, hne, importFinish, setAsked]
      rcases h with h | h
      · left; exact h
      · right
        by_cases hc : s.currentLevel = level
        · simp [hc]
        · simp [hc, h]
  · simpa [importCall, importBegin, hne] using h

/-- C5: across any sequence of `import` calls with any outcomes,
`currentLevel` never decreases (from any state), and from a freshly
initialized object (`currentLevel = -1`) it is always either still `-1` or
a level whose requested flag is set — hence at most the highest requested
index. -/
theorem currentLevel_monotone_below_requested (s : ObjState) (nbLevels : ℕ)
    (calls : List (ℤ × FetchOutcome)) :
    s.currentLevel ≤ (runImports s calls).currentLevel ∧
    ((runImports (initObj nbLevels) calls).currentLevel = -1 ∨
     (runImports (initObj nbLevels) calls).asked
       ((runImports (initObj nbLevels) calls).currentLevel) = true) := by
  refine ⟨runImports_currentLevel_mono calls s, ?_⟩
  have general : ∀ (cs : List (ℤ × FetchOutcome)) (t : ObjState),
      (t.currentLevel = -1 ∨ t.asked t.currentLevel = true) →
      ((runImports t cs).currentLevel = -1 ∨
       (runImports t cs).asked ((runImports t cs).currentLevel) = true) := by
    intro cs
    induction cs with
    | nil => intro t h; exact h
    | cons c rest ih =>
      intro t h
      exact ih _ (importCall_currentLevel_asked t c.1 c.2 h)
  exact general calls (initObj nbLevels) (Or.inl rfl)

/-! ## C8: the in-flight guard of `anim_import` -/

/-- C8: `anim_import` is guarded by `!import_started && !checkAllLoaded()`:
a call made while `import_started` is true returns at once — no strategy
runs, no fetch is issued, the state is unchanged and nothing is queued —
and once every level of every (nonempty) object is loaded every further
call is likewise a no-op. -/
theorem anim_import_guard (strat : List ObjState → List ObjState × ℕ)
    (s : MgrState) :
    (s.import_started = true → anim_import strat s = (s, 0)) ∧
    ((∀ o ∈ s.objects, 0 < o.nbLevels ∧
        ∀ l : ℤ, 0 ≤ l → l < (o.nbLevels : ℤ) → o.levels l = true) →
      anim_import strat s = (s, 0)) := by
  constructor
  · intro h
    unfold anim_import
    rw [if_neg]
    intro hc
    rw [h] at hc
    cases hc.1
  · intro h
    unfold anim_import
    rw [if_neg]
    intro hc
    have hall : checkAllLoaded s.objects = true := by
      unfold checkAllLoaded
      rw [List.all_eq_true]
      intro o ho
      exact (h o ho).2 _ (by have := (h o ho).1; omega)
        (by have := (h o ho).1; omega)
    rw [hall] at hc
    cases hc.2

/-- Witness for C8 at concrete inputs: a manager whose pass is in flight
drops the call; a manager whose single object is fully loaded ignores it. -/
theorem anim_import_guard_witness :
    anim_import stratNone { import_started := true, objects := [loadedObj] }
      = ({ import_started := true, objects := [loadedObj] }, 0) ∧
    anim_import stratNone { import_started := false, objects := [loadedObj] }
      = ({ import_started := false, objects := [loadedObj] }, 0) :=
  ⟨(anim_import_guard stratNone _).1 rfl,
   (anim_import_guard stratNone _).2 (by
      intro o ho
      have : o = loadedObj := by simpa using ho
      subst this
      exact ⟨by norm_num [loadedObj], fun l h1 h2 => rfl⟩)⟩

/-! ## C6 / C10: the single-candidate strategies -/

theorem updateBest_scored_le (b : Best) (o : NObj) (i : ℕ) (j : ℤ) (u : ℚ)
    (h : ∀ e ∈ b.scored, e.score ≤ b.utility) :
    ∀ e ∈ (updateBest b o i j u).scored, e.score ≤ (updateBest b o i j u).utility := by
  simp only [updateBest]
  split_ifs with hu
  · intro e he
    simp only [List.mem_append, List.mem_singleton] at he
    rcases he with he | he
    · exact le_trans (h e he) (le_of_lt hu)
    · subst he; exact le_refl _
  · intro e he
    simp only [List.mem_append, List.mem_singleton] at he
    rcases he with he | he
    · exact h e he
    · subst he; exact le_of_not_lt hu

theorem naive1LevelsF_scored_le (o : NObj) (i : ℕ) :
    ∀ (fuel : ℕ) (j : ℤ) (b : Best),
      (∀ e ∈ b.scored, e.score ≤ b.utility) →
      ∀ e ∈ (naive1LevelsF o i fuel j b).scored,
        e.score ≤ (naive1LevelsF o i fuel j b).utility := by
  intro fuel
  induction fuel with
  | zero => intro j b h; exact h
  | succ f ih =>
    intro j b h
    simp only [naive1LevelsF]
    split
    · split
      · exact ih _ _ (updateBest_scored_le b o i j _ h)
      · exact ih _ _ h
    · exact h

theorem naive1Select_scored_le (visibles : List NObj) :
    ∀ e ∈ (naive1Select visibles).scored, e.score ≤ (naive1Select visibles).utility := by
  unfold naive1Select
  have general : ∀ (ps : List (ℕ × NObj)) (b : Best),
      (∀ e ∈ b.scored, e.score ≤ b.utility) →
      ∀ e ∈ (ps.foldl (fun b p =>
          naive1LevelsF p.2 p.1 ((p.2.nbLevels : ℤ) + 1 - p.2.cur).toNat p.2.cur b)
          b).scored,
        e.score ≤ (ps.foldl (fun b p =>
          naive1LevelsF p.2 p.1 ((p.2.nbLevels : ℤ) + 1 - p.2.cur).toNat p.2.cur b)
          b).utility := by
    intro ps
    induction ps with
    | nil => intro b h; exact h
    | cons p rest ih =>
      intro b h
      exact ih _ (naive1LevelsF_scored_le p.2 p.1 _ _ b h)
  exact general visibles.enum initBest (by intro e he; cases he)

/-- C6: the Naive strategy maximises `quality(level) × utility(now)` with no
cost normalisation — the selected utility dominates every scored candidate —
and on the spec's scenario (A at distance 2 with an unrequested quality-0.9
level 1, B at distance 10 with an unrequested quality-0.95 level 1, Distance
metric) it selects A's level 1. -/
theorem naive1_best_and_scenario :
    (∀ (visibles : List NObj), ∀ e ∈ (naive1Select visibles).scored,
       e.score ≤ (naive1Select visibles).utility) ∧
    (naive1Select [objA, objB]).found = true ∧
    (naive1Select [objA, objB]).obj = 0 ∧
    (naive1Select [objA, objB]).level = 1 := by
  refine ⟨naive1Select_scored_le, ?_⟩
  norm_num [naive1Select, List.enum, naive1LevelsF, updateBest, initBest,
    objA, objB, distanceMetric, vScale, vAdd, vLengthSquared]

/-- Witness for C6 at a concrete input: in the scenario run, the logged
candidate (B, level 1, score 19/2000) scores at most the selected utility. -/
theorem naive1_best_and_scenario_witness :
    (⟨1, 0, 1, 19 / 2000⟩ : Scored) ∈ (naive1Select [objA, objB]).scored ∧
    (⟨1, 0, 1, 19 / 2000⟩ : Scored).score ≤ (naive1Select [objA, objB]).utility :=
  ⟨by norm_num [naive1Select, List.enum, naive1LevelsF, updateBest, initBest,
      objA, objB, distanceMetric, vScale, vAdd, vLengthSquared],
   naive1_best_and_scenario.1 [objA, objB] _
     (by norm_num [naive1Select, List.enum, naive1LevelsF, updateBest, initBest,
       objA, objB, distanceMetric, vScale, vAdd, vLengthSquared])⟩

theorem updateBest_cur_le (b : Best) (o : NObj) (i : ℕ) (j : ℤ) (u : ℚ)
    (hj : o.cur ≤ j)
    (h : (∀ e ∈ b.scored, e.cur ≤ e.level) ∧ b.selCur ≤ b.level) :
    (∀ e ∈ (updateBest b o i j u).scored, e.cur ≤ e.level) ∧
      (updateBest b o i j u).selCur ≤ (updateBest b o i j u).level := by
  simp only [updateBest]
  split_ifs with hu
  · refine ⟨?_, hj⟩
    intro e he
    simp only [List.mem_append, List.mem_singleton] at he
    rcases he with he | he
    · exact h.1 e he
    · subst he; exact hj
  · refine ⟨?_, h.2⟩
    intro e he
    simp only [List.mem_append, List.mem_singleton] at he
    rcases he with he | he
    · exact h.1 e he
    · subst he; exact hj

theorem naive1LevelsF_cur_le (o : NObj) (i : ℕ) :
    ∀ (fuel : ℕ) (j : ℤ) (b : Best), o.cur ≤ j →
      (∀ e ∈ b.scored, e.cur ≤ e.level) ∧ b.selCur ≤ b.level →
      (∀ e ∈ (naive1LevelsF o i fuel j b).scored, e.cur ≤ e.level) ∧
        (naive1LevelsF o i fuel j b).selCur ≤ (naive1LevelsF o i fuel j b).level := by
  intro fuel
  induction fuel with
  | zero => intro j b _ h; exact h
  | succ f ih =>
    intro j b hj h
    simp only [naive1LevelsF]
    split
    · split
      · exact ih _ _ (le_trans hj (by omega)) (updateBest_cur_le b o i j _ hj h)
      · exact ih _ _ (le_trans hj (by omega)) h
    · exact h

theorem greedy1LevelsF_cur_le (bw ds : ℚ) (o : NObj) (i : ℕ) :
    ∀ (fuel : ℕ) (j : ℤ) (b : Best), o.cur ≤ j →
      (∀ e ∈ b.scored, e.cur ≤ e.level) ∧ b.selCur ≤ b.level →
      (∀ e ∈ (greedy1LevelsF bw ds o i fuel j b).scored, e.cur ≤ e.level) ∧
        (greedy1LevelsF bw ds o i fuel j b).selCur
          ≤ (greedy1LevelsF bw ds o i fuel j b).level := by
  intro fuel
  induction fuel with
  | zero => intro j b _ h; exact h
  | succ f ih =>
    intro j b hj h
    simp only [greedy1LevelsF]
    split
    · split
      · exact ih _ _ (le_trans hj (by omega)) (updateBest_cur_le b o i j _ hj h)
      · exact ih _ _ (le_trans hj (by omega)) h
    · exact h

theorem proposed1LevelsF_cur_le (bw ds : ℚ) (o : NObj) (i : ℕ) :
    ∀ (fuel : ℕ) (j : ℤ) (b : Best2), o.cur ≤ j →
      (∀ e ∈ b.scored, e.cur ≤ e.level) ∧ b.selCur ≤ b.level ∧ b.selCur2 ≤ b.level2 →
      (∀ e ∈ (proposed1LevelsF bw ds o i fuel j b).scored, e.cur ≤ e.level) ∧
        (proposed1LevelsF bw ds o i fuel j b).selCur
          ≤ (proposed1LevelsF bw ds o i fuel j b).level ∧
        (proposed1LevelsF bw ds o i fuel j b).selCur2
          ≤ (proposed1LevelsF bw ds o i fuel j b).level2 := by
  intro fuel
  induction fuel with
  | zero => intro j b _ h; exact h
  | succ f ih =>
    intro j b hj h
    simp only [proposed1LevelsF]
    split
    · refine ih _ _ (le_trans hj (by omega)) ?_
      split_ifs with hload hinc hu1 hneg hu2
      · refine ⟨?_, hj, h.2.2⟩
        intro e he
        simp only [List.mem_append, List.mem_singleton] at he
        rcases he with he | he
        · exact h.1 e he
        · subst he; exact hj
      · refine ⟨?_, h.2.1, h.2.2⟩
        intro e he
        simp only [List.mem_append, List.mem_singleton] at he
        rcases he with he | he
        · exact h.1 e he
        · subst he; exact hj
      · refine ⟨?_, h.2.1, hj⟩
        intro e he
        simp only [List.mem_append, List.mem_singleton] at he
        rcases he with he | he
        · exact h.1 e he
        · subst he; exact hj
      · refine ⟨?_, h.2.1, h.2.2⟩
        intro e he
        simp only [List.mem_append, List.mem_singleton] at he
        rcases he with he | he
        · exact h.1 e he
        · subst he; exact hj
      · exact h
      · exact h
    · exact h

/-- C10: the Naive, Greedy1 and Proposed1 passes only consider candidate
levels at or above the object's `currentLevel` at pass start: every scored
candidate satisfies `cur ≤ level`, and the candidate each pass would fetch
(the selected best, including Proposed1's fallback best) does too. -/
theorem single_candidate_levels_ge_current (bw ds : ℚ) (visibles : List NObj) :
    ((∀ e ∈ (naive1Select visibles).scored, e.cur ≤ e.level) ∧
      (naive1Select visibles).selCur ≤ (naive1Select visibles).level) ∧
    ((∀ e ∈ (greedy1Select bw ds visibles).scored, e.cur ≤ e.level) ∧
      (greedy1Select bw ds visibles).selCur ≤ (greedy1Select bw ds visibles).level) ∧
    ((∀ e ∈ (proposed1Select bw ds visibles).scored, e.cur ≤ e.level) ∧
      (proposed1Select bw ds visibles).selCur ≤ (proposed1Select bw ds visibles).level ∧
      (proposed1Select bw ds visibles).selCur2 ≤ (proposed1Select bw ds visibles).level2) := by
  refine ⟨?_, ?_, ?_⟩
  · unfold naive1Select
    have general : ∀ (ps : List (ℕ × NObj)) (b : Best),
        (∀ e ∈ b.scored, e.cur ≤ e.level) ∧ b.selCur ≤ b.level →
        (∀ e ∈ (ps.foldl (fun b p =>
            naive1LevelsF p.2 p.1 ((p.2.nbLevels : ℤ) + 1 - p.2.cur).toNat p.2.cur b)
            b).scored, e.cur ≤ e.level) ∧
          (ps.foldl (fun b p =>
            naive1LevelsF p.2 p.1 ((p.2.nbLevels : ℤ) + 1 - p.2.cur).toNat p.2.cur b)
            b).selCur
          ≤ (ps.foldl (fun b p =>
            naive1LevelsF p.2 p.1 ((p.2.nbLevels : ℤ) + 1 - p.2.cur).toNat p.2.cur b)
            b).level := by
      intro ps
      induction ps with
      | nil => intro b h; exact h
      | cons p rest ih =>
        intro b h
        exact ih _ (naive1LevelsF_cur_le p.2 p.1 _ _ b (le_refl _) h)
    exact general visibles.enum initBest ⟨fun e he => absurd he (List.not_mem_nil e), le_refl 0⟩
  · unfold greedy1Select
    have general : ∀ (ps : List (ℕ × NObj)) (b : Best),
        (∀ e ∈ b.scored, e.cur ≤ e.level) ∧ b.selCur ≤ b.level →
        (∀ e ∈ (ps.foldl (fun b p =>
            greedy1LevelsF bw ds p.2 p.1 ((p.2.nbLevels : ℤ) + 1 - p.2.cur).toNat p.2.cur b)
            b).scored, e.cur ≤ e.level) ∧
          (ps.foldl (fun b p =>
            greedy1LevelsF bw ds p.2 p.1 ((p.2.nbLevels : ℤ) + 1 - p.2.cur).toNat p.2.cur b)
            b).selCur
          ≤ (ps.foldl (fun b p =>
            greedy1LevelsF bw ds p.2 p.1 ((p.2.nbLevels : ℤ) + 1 - p.2.cur).toNat p.2.cur b)
            b).level := by
      intro ps
      induction ps with
      | nil => intro b h; exact h
      | cons p rest ih =>
        intro b h
        exact ih _ (greedy1LevelsF_cur_le bw ds p.2 p.1 _ _ b (le_refl _) h)
    exact general visibles.enum initBest ⟨fun e he => absurd he (List.not_mem_nil e), le_refl 0⟩
  · unfold proposed1Select
    have general : ∀ (ps : List (ℕ × NObj)) (b : Best2),
        (∀ e ∈ b.scored, e.cur ≤ e.level) ∧ b.selCur ≤ b.level ∧ b.selCur2 ≤ b.level2 →
        (∀ e ∈ (ps.foldl (fun b p =>
            proposed1LevelsF bw ds p.2 p.1 ((p.2.nbLevels : ℤ) + 1 - p.2.cur).toNat p.2.cur b)
            b).scored, e.cur ≤ e.level) ∧
          (ps.foldl (fun b p =>
            proposed1LevelsF bw ds p.2 p.1 ((p.2.nbLevels : ℤ) + 1 - p.2.cur).toNat p.2.cur b)
            b).selCur
          ≤ (ps.foldl (fun b p =>
            proposed1LevelsF bw ds p.2 p.1 ((p.2.nbLevels : ℤ) + 1 - p.2.cur).toNat p.2.cur b)
            b).level ∧
          (ps.foldl (fun b p =>
            proposed1LevelsF bw ds p.2 p.1 ((p.2.nbLevels : ℤ) + 1 - p.2.cur).toNat p.2.cur b)
            b).selCur2
          ≤ (ps.foldl (fun b p =>
            proposed1LevelsF bw ds p.2 p.1 ((p.2.nbLevels : ℤ) + 1 - p.2.cur).toNat p.2.cur b)
            b).level2 := by
      intro ps
      induction ps with
      | nil => intro b h; exact h
      | cons p rest ih =>
        intro b h
        exact ih _ (proposed1LevelsF_cur_le bw ds p.2 p.1 _ _ b (le_refl _) h)
    exact general visibles.enum initBest2 ⟨fun e he => absurd he (List.not_mem_nil e), le_refl 0, le_refl 0⟩

/-- Witness for C10 at a concrete input: the scenario pass over `[objA]`
logs candidate (A, level 1) with `cur ≤ level`, and the selected bests obey
the same bound. -/
theorem single_candidate_levels_ge_current_witness :
    (naive1Select [objA]).selCur ≤ (naive1Select [objA]).level ∧
    (greedy1Select 1 1 [objA]).selCur ≤ (greedy1Select 1 1 [objA]).level ∧
    (proposed1Select 1 1 [objA]).selCur ≤ (proposed1Select 1 1 [objA]).level ∧
    (⟨0, 0, 1, 9 / 40⟩ : Scored).cur ≤ (⟨0, 0, 1, 9 / 40⟩ : Scored).level :=
  ⟨(single_candidate_levels_ge_current 1 1 [objA]).1.2,
   (single_candidate_levels_ge_current 1 1 [objA]).2.1.2,
   (single_candidate_levels_ge_current 1 1 [objA]).2.2.2.1,
   (single_candidate_levels_ge_current 1 1 [objA, objB]).1.1 _
     (by norm_num [naive1Select, List.enum, naive1LevelsF, updateBest, initBest,
       objA, objB, distanceMetric, vScale, vAdd, vLengthSquared])⟩

/-! ## C9: the hull-plus-clip area under permutations -/

theorem jsSortByX_sorted (l : List Vec2) :
    List.Sorted (fun p q : Vec2 => p.x ≤ q.x) (jsSortByX l) := by
  letI : IsTotal Vec2 (fun p q : Vec2 => p.x ≤ q.x) := ⟨fun a b => le_total a.x b.x⟩
  letI : IsTrans Vec2 (fun p q : Vec2 => p.x ≤ q.x) :=
    ⟨fun a b c hab hbc => le_trans hab hbc⟩
  exact List.sorted_insertionSort _ l

theorem jsSortByX_perm (l : List Vec2) : (jsSortByX l).Perm l :=
  List.perm_insertionSort _ l

theorem jsSortByX_eq_of_perm (l l2 : List Vec2) (hp : l.Perm l2)
    (hx : l.Pairwise fun p q : Vec2 => p.x ≠ q.x) : jsSortByX l = jsSortByX l2 := by
  have hs1 := jsSortByX_sorted l
  have hs2 := jsSortByX_sorted l2
  have hsymm : ∀ {a b : Vec2}, a.x ≠ b.x → b.x ≠ a.x := fun h => h.symm
  have hperm : (jsSortByX l).Perm (jsSortByX l2) :=
    (jsSortByX_perm l).trans (hp.trans (jsSortByX_perm l2).symm)
  have hx1 : (jsSortByX l).Pairwise (fun p q : Vec2 => p.x ≠ q.x) :=
    ((jsSortByX_perm l).pairwise_iff hsymm).2 hx
  have hx2 : (jsSortByX l2).Pairwise (fun p q : Vec2 => p.x ≠ q.x) :=
    (hperm.pairwise_iff hsymm).1 hx1
  have hstrict1 : List.Sorted (fun p q : Vec2 => p.x < q.x) (jsSortByX l) :=
    (hs1.and hx1).imp fun h => lt_of_le_of_ne h.1 h.2
  have hstrict2 : List.Sorted (fun p q : Vec2 => p.x < q.x) (jsSortByX l2) :=
    (hs2.and hx2).imp fun h => lt_of_le_of_ne h.1 h.2
  letI : IsAntisymm Vec2 (fun p q : Vec2 => p.x < q.x) :=
    ⟨fun a b h1 h2 => absurd (h1.trans h2) (lt_irrefl _)⟩
  exact List.eq_of_perm_of_sorted hperm hstrict1 hstrict2

theorem getSurfaceOnScreen_perm_of_distinct (l l2 : List Vec2) (hp : l.Perm l2)
    (hx : l.Pairwise fun p q : Vec2 => p.x ≠ q.x) :
    getSurfaceOnScreen l = getSurfaceOnScreen l2 := by
  have h := jsSortByX_eq_of_perm l l2 hp hx
  unfold getSurfaceOnScreen computeConvexHull
  rw [h]

/-- C9 counterexample: `getSurfaceOnScreen` is not invariant under
permutation of its input.  With two distinct `Vector2` objects at the same
coordinates `(0,0)` (JavaScript `==` separates them) plus `(1,0)` and
`(0,1)`, one input order makes the gift wrap close after the two coincident
points (area `0`) while another order yields the true triangular hull (area
`1/2`). -/
theorem getSurfaceOnScreen_not_permutation_invariant :
    List.Perm [p1, p2, p3, p4] [p4, p1, p2, p3] ∧
    getSurfaceOnScreen [p1, p2, p3, p4] = 0 ∧
    getSurfaceOnScreen [p4, p1, p2, p3] = 1 / 2 ∧
    getSurfaceOnScreen [p1, p2, p3, p4]
      ≠ getSurfaceOnScreen [p4, p1, p2, p3] := by
  refine ⟨by decide, ?_, ?_, ?_⟩ <;>
    norm_num [getSurfaceOnScreen, computeConvexHull, jsSortByX,
      List.insertionSort, List.orderedInsert, giftWrapF, selectEndpoint, jsEq,
      isBetterPoint, vector2ToPolygon, intersectionUnitSquare,
      screenHalfPlanes, clipHalfPlane, cyclePairs, inHalfPlane, edgeCross,
      polygonSurface, shoelace, p1, p2, p3, p4]

/-- C9 (amended): the convex-hull-plus-viewport-clip area is invariant
under permutation of the input point list whenever the points have pairwise
distinct `x` coordinates (coincident or vertically aligned projected
corners can break the invariance, as the counterexample shows); the
Visible / Potential metric tail returns `0` whenever at most two projected
points survive; and a degenerate clipped polygon (empty, or a ≤ 2-vertex
closed ring) yields area `0`. -/
theorem convexHull_area_properties :
    (∀ (l l2 : List Vec2), l.Perm l2 →
      (l.Pairwise fun p q : Vec2 => p.x ≠ q.x) →
      getSurfaceOnScreen l = getSurfaceOnScreen l2) ∧
    (∀ corners : List Vec2, corners.length ≤ 2 → visibleScore corners = 0) ∧
    polygonSurface [] = 0 ∧
    (∀ a b : ℚ × ℚ, polygonSurface [[[a, b, a]]] = 0) := by
  refine ⟨getSurfaceOnScreen_perm_of_distinct, ?_, rfl, ?_⟩
  · intro corners h
    simp [visibleScore, h]
  · intro a b
    simp only [polygonSurface, shoelace, List.zip, List.zipWith, List.tail,
      List.foldl]
    have hz : (0 + (a.1 * b.2 - a.2 * b.1) + (b.1 * a.2 - b.2 * a.1) : ℚ) = 0 := by
      ring
    rw [hz]
    simp

/-- Witness for C9 (amended) at concrete inputs: swapping two
distinct-`x` points keeps the area; two corners score `0`; the degenerate
two-vertex ring has area `0`. -/
theorem convexHull_area_properties_witness :
    getSurfaceOnScreen [p1, p3] = getSurfaceOnScreen [p3, p1] ∧
    visibleScore [p1, p3] = 0 ∧
    polygonSurface [[[((0 : ℚ), (0 : ℚ)), (1, 1), (0, 0)]]] = 0 :=
  ⟨convexHull_area_properties.1 [p1, p3] [p3, p1] (by decide) (by decide),
   convexHull_area_properties.2.1 [p1, p3] (by decide),
   convexHull_area_properties.2.2.2 (0, 0) (1, 1)⟩

end AdaptiveStreaming
